import Mathlib

/-!
Verification of the `rust-logtest2` word-counting demo program.

The development shallowly embeds the two source files:

* `src/errors.rs` — the `Errors` enumeration together with the message
  renderer generated by the `thiserror` format attributes;
* `src/main.rs` — the `main` driver: argument validation, the per-file
  loop that opens each file, reads its lines, splits them on whitespace
  runs, accumulates a word count, performs the empty-source check, and
  logs a success message per file.

File-system interaction is modelled by a map from filenames to optional
file data, where a file's data is the list of line-read results that
`BufReader::lines` would yield (a line either reads successfully or
fails).  The driver is modelled as a pure function returning the log
records it emits, the list of files it attempted to open, and the
process result (success, or the error that aborted the run).
-/

/-- Log severities of the `log` crate, as used by `main.rs`. -/
inductive Level where
  | error
  | warn
  | info
  | debug
  | trace
deriving DecidableEq, Repr

/-- One record sent to the logging sink: a severity and a message. -/
structure LogEntry where
  level : Level
  msg : String
deriving DecidableEq, Repr

/-- The error enumeration of `src/errors.rs` (`enum Errors`).  The
`ReadError` and `IOError` payloads carry an `std::io::Error`; its value
is never interpolated into a rendered message (`ReadError` renders as
the fixed string "Read error"), so `ReadError` needs no payload here and
`IOError`, whose rendering is a transparent passthrough, carries the
underlying message string. -/
inductive Errors where
  | Success (count : Nat) (fname : String)
  | EmptySource (f : String)
  | FileNotFound (f : String)
  | ReadError
  | MissingArg (a : String)
  | IOError (m : String)
deriving DecidableEq, Repr

/-- The message renderer generated by the `thiserror` `#[error(...)]`
attributes in `src/errors.rs`.  Note the two spaces after "SUCCESS!" in
the source format string `"SUCCESS!  We found {} words in {}."`. -/
def Errors.fmt : Errors → String
  | .Success count fname =>
      "SUCCESS!  We found " ++ toString count ++ " words in " ++ fname ++ "."
  | .EmptySource f => "Source file contains no data: " ++ f
  | .FileNotFound f => "File not found: " ++ f
  | .ReadError => "Read error"
  | .MissingArg a => "A '" ++ a ++ "' argument is required."
  | .IOError m => m

/-- One line-read result produced by `BufReader::lines`: either a line
(without its terminator) or a read failure. -/
abbrev Line := Except Unit String

/-- The sequence of line-read results a file yields. -/
abbrev FileData := List Line

/-- A file system: maps a filename to its data when `File::open`
succeeds, `none` when the open fails. -/
abbrev FS := String → Option FileData

deriving instance DecidableEq for Except

/-- Word counter for one line: the state machine underlying
`line.split_whitespace()` followed by one increment per token.  The
boolean records whether the scan is currently inside a token. -/
def countWordsAux : List Char → Bool → Nat
  | [], _ => 0
  | c :: cs, inTok =>
    if c.isWhitespace then countWordsAux cs false
    else if inTok then countWordsAux cs true
    else 1 + countWordsAux cs true

/-- Number of whitespace-delimited tokens in one line, as counted by the
driver's inner loop `for _word in line.split_whitespace()`. -/
def countTokens (s : String) : Nat := countWordsAux s.data false

/-- The line-reading loop of `main.rs` for one file: starting from the
current accumulator value `wc`, fold the file's lines, adding one per
token; a failed line read aborts with the payload that becomes
`Errors::ReadError`. -/
def countFileWords : FileData → Nat → Except Unit Nat
  | [], wc => .ok wc
  | .error _ :: _, _ => .error ()
  | .ok s :: rest, wc => countFileWords rest (wc + countTokens s)

/-- The observable outcome of one program run: the records sent to the
logging sink, the filenames for which `File::open` was attempted (in
order), and the process result — `Except.ok ()` means exit status 0,
`Except.error e` means the run aborted with error `e` and a failure
exit status. -/
structure RunResult where
  log : List LogEntry
  opens : List String
  result : Except Errors Unit
deriving DecidableEq, Repr

/-- The per-file loop of `main.rs`.  The accumulator `wc` is the
`wordcount` variable, which the source declares once *before* the loop;
it is threaded through and never reset between files. -/
def processFiles : List String → FS → Nat → RunResult
  | [], _, _ => { log := [], opens := [], result := .ok () }
  | f :: rest, fs, wc =>
    match fs f with
    | none => { log := [], opens := [f], result := .error (.FileNotFound f) }
    | some d =>
      match countFileWords d wc with
      | .error _ => { log := [], opens := [f], result := .error .ReadError }
      | .ok wc' =>
        if wc' = 0 then
          { log := [], opens := [f], result := .error (.EmptySource f) }
        else
          let r := processFiles rest fs wc'
          { log := ⟨.info, (Errors.Success wc' f).fmt⟩ :: r.log,
            opens := f :: r.opens,
            result := r.result }

/-- The five demonstration records `main.rs` sends to the sink right
after initializing log4rs (`error!("msg1")` … `trace!("msg5")`).  The
startup banner line goes directly to stdout, outside the sink, and the
log4rs configuration file is an external collaborator, so neither is
part of the model. -/
def preamble : List LogEntry :=
  [⟨.error, "msg1"⟩, ⟨.warn, "msg2"⟩, ⟨.info, "msg3"⟩,
   ⟨.debug, "msg4"⟩, ⟨.trace, "msg5"⟩]

/-- The `main` function of `main.rs`, as a function of the invocation
arguments after the program name (`env::args().skip(1)`; the source's
guard `env::args().len() < 2` is exactly emptiness of that list) and of
the file system. -/
def mainRun : List String → FS → RunResult
  | [], _ =>
      { log := preamble ++ [⟨.error, (Errors.MissingArg "filename").fmt⟩],
        opens := [],
        result := .error (.MissingArg "filename") }
  | f :: rest, fs =>
      let r := processFiles (f :: rest) fs 0
      { log := preamble ++ r.log, opens := r.opens, result := r.result }

/-- Token contribution of one line-read result (a failed read
contributes nothing; it aborts the run instead). -/
def lineTokens : Line → Nat
  | .ok s => countTokens s
  | .error _ => 0

/-- Total number of whitespace-delimited tokens in a file's data. -/
def dataTokens (d : FileData) : Nat := (d.map lineTokens).sum

/-- Token count of the file named `f`, zero if it cannot be opened. -/
def fileTokens (fs : FS) (f : String) : Nat :=
  match fs f with
  | some d => dataTokens d
  | none => 0

/-- Total token count of a list of files. -/
def listTokens (fs : FS) : List String → Nat
  | [] => 0
  | f :: rest => fileTokens fs f + listTokens fs rest

/-- A line-read result that succeeded. -/
def lineOk : Line → Bool
  | .ok _ => true
  | .error _ => false

/-- The file named `f` opens and every line of it reads successfully. -/
def readableB (fs : FS) (f : String) : Bool :=
  match fs f with
  | none => false
  | some d => d.all lineOk

/-- The success records the loop emits for `files`, starting from
accumulator value `wc`: the count reported for the k-th file is `wc`
plus the cumulative token total of files 1 through k. -/
def successFrom (fs : FS) : Nat → List String → List LogEntry
  | _, [] => []
  | wc, f :: rest =>
      ⟨.info, (Errors.Success (wc + fileTokens fs f) f).fmt⟩ ::
        successFrom fs (wc + fileTokens fs f) rest

/-- Every character of `l` is whitespace. -/
def allWS (l : List Char) : Prop := ∀ c ∈ l, c.isWhitespace = true

/-- A whitespace-delimited token: nonempty and free of whitespace. -/
def isTok (l : List Char) : Prop := l ≠ [] ∧ ∀ c ∈ l, c.isWhitespace = false

/-- A character stream assembled from leading whitespace `w0`, a list of
tokens each followed by its separating whitespace, and an optional final
token `tl` with nothing after it. -/
def assemble (w0 : List Char) (ps : List (List Char × List Char)) (tl : List Char) : List Char :=
  w0 ++ (ps.map fun p => p.1 ++ p.2).flatten ++ tl

/-- Strip one optional leading carriage return; applied to the reversed
line accumulator this is the `\r` stripping `BufRead::lines` performs
just before a line terminator. -/
def dropCR : List Char → List Char
  | [] => []
  | c :: t => if c = '\r' then t else c :: t

/-- Splitter underlying `BufRead::lines`: `acc` holds the current line's
characters in reverse.  A `'\n'` terminates a line (stripping one
preceding `'\r'`); a final segment without a terminator is still a line,
and an empty input yields no lines. -/
def splitLinesAux : List Char → List Char → List (List Char)
  | [], acc => if acc = [] then [] else [acc.reverse]
  | c :: rest, acc =>
    if c = '\n' then (dropCR acc).reverse :: splitLinesAux rest []
    else splitLinesAux rest (c :: acc)

/-- The lines `BufRead::lines` yields for the raw character stream `cs`. -/
def splitLines (cs : List Char) : List (List Char) := splitLinesAux cs []

/-- The file data a file with raw content `cs` presents to the driver:
every line reads successfully. -/
def fileDataOfBytes (cs : List Char) : FileData :=
  (splitLines cs).map fun l => .ok (String.mk l)

/-- Total token count of a list of lines. -/
def linesWords (ls : List (List Char)) : Nat :=
  (ls.map fun l => countWordsAux l false).sum


instance (l : List Char) : Decidable (allWS l) := by
  unfold allWS
  infer_instance

instance (l : List Char) : Decidable (isTok l) := by
  unfold isTok
  infer_instance

/-- A file system with a one-token file "a" and a zero-token (empty)
file "b"; every other open fails. -/
def fsDemo : FS := fun f =>
  if f = "a" then some [.ok "x"] else if f = "b" then some [] else none

/-- A file system with two one-token files "a" and "b". -/
def fsTwoFiles : FS := fun f =>
  if f = "a" then some [.ok "x"] else if f = "b" then some [.ok "y"] else none

/-- A file system where only the one-token file "a" opens. -/
def fsC6 : FS := fun f => if f = "a" then some [.ok "x"] else none

theorem countWordsAux_leading_ws (w : List Char) (hw : allWS w) :
    ∀ cs, countWordsAux (w ++ cs) false = countWordsAux cs false := by
  induction w with
  | nil => intro cs; rfl
  | cons c w ih =>
    intro cs
    have hc : c.isWhitespace = true := hw c (List.mem_cons_self _ _)
    simp only [List.cons_append, countWordsAux, hc, if_true]
    exact ih (fun c hc => hw c (List.mem_cons_of_mem _ hc)) cs

theorem countWordsAux_tok_rest (t : List Char) (ht : ∀ c ∈ t, c.isWhitespace = false) :
    ∀ cs, countWordsAux (t ++ cs) true = countWordsAux cs true := by
  induction t with
  | nil => intro cs; rfl
  | cons c t ih =>
    intro cs
    have hc : c.isWhitespace = false := ht c (List.mem_cons_self _ _)
    simp only [List.cons_append, countWordsAux, hc, Bool.false_eq_true, if_false, if_true,
      List.append_eq]
    exact ih (fun c hc => ht c (List.mem_cons_of_mem _ hc)) cs

theorem countWordsAux_tok_start (t : List Char) (ht : isTok t) :
    ∀ cs, countWordsAux (t ++ cs) false = 1 + countWordsAux cs true := by
  obtain ⟨hne, hw⟩ := ht
  cases t with
  | nil => exact absurd rfl hne
  | cons c t =>
    intro cs
    have hc : c.isWhitespace = false := hw c (List.mem_cons_self _ _)
    simp only [List.cons_append, countWordsAux, hc, Bool.false_eq_true, if_false,
      List.append_eq]
    rw [countWordsAux_tok_rest t (fun c hc => hw c (List.mem_cons_of_mem _ hc)) cs]

theorem countWordsAux_split (w : Char) (hw : w.isWhitespace = true) (ys : List Char) :
    ∀ xs b, countWordsAux (xs ++ w :: ys) b = countWordsAux xs b + countWordsAux ys false := by
  intro xs
  induction xs with
  | nil => intro b; simp [countWordsAux, hw]
  | cons x xs ih =>
    intro b
    by_cases hx : x.isWhitespace = true
    · simp only [List.cons_append, countWordsAux, hx, if_true, List.append_eq]
      exact ih false
    · simp only [List.cons_append, countWordsAux, hx, Bool.false_eq_true, if_false,
        List.append_eq]
      cases b with
      | true => exact ih true
      | false => simp only [Bool.false_eq_true, if_false]; rw [ih true]; omega

theorem countWordsAux_trailing_ws (xs : List Char) (b : Bool) (w : Char)
    (hw : w.isWhitespace = true) :
    countWordsAux (xs ++ [w]) b = countWordsAux xs b := by
  have h := countWordsAux_split w hw [] xs b
  simpa [countWordsAux] using h

theorem countWordsAux_assembly (ps : List (List Char × List Char)) (tl : List Char)
    (hps : ∀ p ∈ ps, isTok p.1 ∧ allWS p.2 ∧ p.2 ≠ []) (htl : tl = [] ∨ isTok tl) :
    countWordsAux ((ps.map fun p => p.1 ++ p.2).flatten ++ tl) false
      = ps.length + (if tl = [] then 0 else 1) := by
  induction ps with
  | nil =>
    cases htl with
    | inl h => subst h; simp [countWordsAux]
    | inr h =>
      have hne := h.1
      have htok : countWordsAux (tl ++ []) false = 1 + countWordsAux [] true :=
        countWordsAux_tok_start tl h []
      simp only [List.append_nil] at htok
      simp [htok, hne, countWordsAux]
  | cons p ps ih =>
    obtain ⟨ht, hwsep, hnesep⟩ := hps p (List.mem_cons_self _ _)
    have hrest : ∀ q ∈ ps, isTok q.1 ∧ allWS q.2 ∧ q.2 ≠ [] :=
      fun q hq => hps q (List.mem_cons_of_mem _ hq)
    simp only [List.map_cons, List.flatten_cons, List.append_assoc]
    rw [countWordsAux_tok_start p.1 ht]
    cases hsep : p.2 with
    | nil => exact absurd hsep hnesep
    | cons c w =>
      have hc : c.isWhitespace = true := by
        have := hwsep c; rw [hsep] at this; exact this (List.mem_cons_self _ _)
      have hw : allWS w := by
        intro x hx
        have := hwsep x; rw [hsep] at this; exact this (List.mem_cons_of_mem _ hx)
      simp only [List.cons_append, countWordsAux, hc, if_true, List.append_eq]
      rw [countWordsAux_leading_ws w hw, ih hrest]
      simp only [List.length_cons]
      omega

theorem dropCR_count (acc : List Char) :
    countWordsAux (dropCR acc).reverse false = countWordsAux acc.reverse false := by
  cases acc with
  | nil => rfl
  | cons c t =>
    by_cases hc : c = '\r'
    · subst hc
      simp only [dropCR, if_pos rfl, List.reverse_cons]
      exact (countWordsAux_trailing_ws t.reverse false '\r' (by decide)).symm
    · simp [dropCR, hc]

theorem linesWords_splitLinesAux (cs : List Char) :
    ∀ acc, linesWords (splitLinesAux cs acc) = countWordsAux (acc.reverse ++ cs) false := by
  induction cs with
  | nil =>
    intro acc
    by_cases h : acc = []
    · subst h; simp [splitLinesAux, linesWords, countWordsAux]
    · simp [splitLinesAux, h, linesWords]
  | cons c rest ih =>
    intro acc
    by_cases hc : c = '\n'
    · subst hc
      show linesWords ((dropCR acc).reverse :: splitLinesAux rest [])
          = countWordsAux (acc.reverse ++ '\n' :: rest) false
      simp only [linesWords, List.map_cons, List.sum_cons]
      have hrest : (List.map (fun l => countWordsAux l false) (splitLinesAux rest [])).sum
          = countWordsAux rest false := by
        have := ih []
        simpa [linesWords] using this
      rw [hrest, dropCR_count,
        countWordsAux_split '\n' (by decide) rest acc.reverse false]
    · simp only [splitLinesAux, if_neg hc]
      rw [ih (c :: acc)]
      simp [List.reverse_cons, List.append_assoc]

/-- Token total of the lines of a raw stream equals the token count of
the stream itself: line terminators are whitespace, so splitting into
lines never splits a token. -/
theorem linesWords_splitLines (cs : List Char) :
    linesWords (splitLines cs) = countWordsAux cs false := by
  simpa using linesWords_splitLinesAux cs []

theorem countFileWords_all_ok (d : FileData) :
    ∀ wc, d.all lineOk = true → countFileWords d wc = .ok (wc + dataTokens d) := by
  induction d with
  | nil => intro wc _; simp [countFileWords, dataTokens]
  | cons l rest ih =>
    intro wc h
    simp only [List.all_cons, Bool.and_eq_true] at h
    cases l with
    | error e => simp [lineOk] at h
    | ok s =>
      show countFileWords rest (wc + countTokens s) = _
      rw [ih (wc + countTokens s) h.2]
      simp [dataTokens, lineTokens, Nat.add_assoc]

theorem countFileWords_le (d : FileData) :
    ∀ wc w, countFileWords d wc = .ok w → wc ≤ w := by
  induction d with
  | nil =>
    intro wc w h
    simp only [countFileWords, Except.ok.injEq] at h
    omega
  | cons l rest ih =>
    intro wc w h
    cases l with
    | error e => simp [countFileWords] at h
    | ok s =>
      have := ih (wc + countTokens s) w h
      omega

theorem countFileWords_append (d₁ d₂ : FileData) :
    ∀ wc w, countFileWords d₁ wc = .ok w →
      countFileWords (d₁ ++ d₂) wc = countFileWords d₂ w := by
  induction d₁ with
  | nil =>
    intro wc w h
    simp only [countFileWords, Except.ok.injEq] at h
    subst h
    simp
  | cons l rest ih =>
    intro wc w h
    cases l with
    | error e => simp [countFileWords] at h
    | ok s => exact ih (wc + countTokens s) w h

/-- The word count computed for a file with raw content `cs`, starting
from accumulator value `wc`. -/
theorem countFileWords_bytes (cs : List Char) (wc : Nat) :
    countFileWords (fileDataOfBytes cs) wc = .ok (wc + countWordsAux cs false) := by
  have hall : (fileDataOfBytes cs).all lineOk = true := by
    simp [fileDataOfBytes, List.all_map, lineOk]
  rw [countFileWords_all_ok _ wc hall]
  have hdt : dataTokens (fileDataOfBytes cs) = countWordsAux cs false := by
    rw [← linesWords_splitLines cs]
    simp only [dataTokens, fileDataOfBytes, List.map_map, linesWords]
    rfl
  rw [hdt]

/-- Every record the per-file loop itself sends to the sink is an
informational success message; the loop never logs at error severity. -/
theorem processFiles_log_levels (args : List String) (fs : FS) :
    ∀ wc, ∀ e ∈ (processFiles args fs wc).log,
      e.level = Level.info ∧ ∃ c f, e.msg = (Errors.Success c f).fmt := by
  induction args with
  | nil => intro wc e he; simp [processFiles] at he
  | cons f rest ih =>
    intro wc e he
    cases hfs : fs f with
    | none => simp [processFiles, hfs] at he
    | some d =>
      cases hcw : countFileWords d wc with
      | error u => simp [processFiles, hfs, hcw] at he
      | ok wc' =>
        by_cases hz : wc' = 0
        · simp [processFiles, hfs, hcw, hz] at he
        · simp only [processFiles, hfs, hcw, if_neg hz] at he
          rcases List.mem_cons.mp he with h | hmem
          · subst h; exact ⟨rfl, wc', f, rfl⟩
          · exact ih wc' e hmem

/-- Once the accumulator is positive, the loop can never fail with
`EmptySource`, whatever the remaining files hold. -/
theorem processFiles_no_empty (args : List String) (fs : FS) :
    ∀ wc, 0 < wc → ∀ f, (processFiles args fs wc).result ≠ .error (.EmptySource f) := by
  induction args with
  | nil => intro wc _ f h; simp [processFiles] at h
  | cons g rest ih =>
    intro wc hwc f h
    cases hfs : fs g with
    | none => simp [processFiles, hfs] at h
    | some d =>
      cases hcw : countFileWords d wc with
      | error u => simp [processFiles, hfs, hcw] at h
      | ok wc' =>
        have hle : wc ≤ wc' := countFileWords_le d wc wc' hcw
        have hz : ¬ wc' = 0 := by omega
        simp only [processFiles, hfs, hcw, if_neg hz] at h
        exact ih wc' (by omega) f h

/-- The loop never produces the `Success` variant as a failure result. -/
theorem processFiles_not_success (args : List String) (fs : FS) :
    ∀ wc c f, (processFiles args fs wc).result ≠ .error (.Success c f) := by
  induction args with
  | nil => intro wc c f h; simp [processFiles] at h
  | cons g rest ih =>
    intro wc c f h
    cases hfs : fs g with
    | none => simp [processFiles, hfs] at h
    | some d =>
      cases hcw : countFileWords d wc with
      | error u => simp [processFiles, hfs, hcw] at h
      | ok wc' =>
        by_cases hz : wc' = 0
        · simp [processFiles, hfs, hcw, hz] at h
        · simp only [processFiles, hfs, hcw, if_neg hz] at h
          exact ih wc' c f h

/-- Splitting the per-file loop at an arbitrary point: once the leading
files are all readable and the accumulator stays positive through them,
the loop logs their cumulative success messages and continues on the
remaining files with the accumulated count. -/
theorem processFiles_append (fs : FS) (pre rest : List String) :
    ∀ wc, (∀ f ∈ pre, readableB fs f = true) →
      (0 < wc ∨ ∀ f ∈ pre, 0 < fileTokens fs f) →
      processFiles (pre ++ rest) fs wc =
        { log := successFrom fs wc pre ++ (processFiles rest fs (wc + listTokens fs pre)).log,
          opens := pre ++ (processFiles rest fs (wc + listTokens fs pre)).opens,
          result := (processFiles rest fs (wc + listTokens fs pre)).result } := by
  induction pre with
  | nil =>
    intro wc _ _
    simp [successFrom, listTokens]
  | cons f pre ih =>
    intro wc hread hpos
    have hf : readableB fs f = true := hread f (List.mem_cons_self _ _)
    cases hfs : fs f with
    | none => rw [readableB, hfs] at hf; simp at hf
    | some d =>
      have hall : d.all lineOk = true := by rw [readableB, hfs] at hf; exact hf
      have hcw : countFileWords d wc = .ok (wc + dataTokens d) :=
        countFileWords_all_ok d wc hall
      have hft : fileTokens fs f = dataTokens d := by simp [fileTokens, hfs]
      have hwz : ¬ (wc + dataTokens d = 0) := by
        cases hpos with
        | inl h => omega
        | inr h =>
          have := h f (List.mem_cons_self _ _)
          rw [hft] at this
          omega
      simp only [List.cons_append, processFiles, hfs, hcw, if_neg hwz, List.append_eq]
      rw [ih (wc + dataTokens d) (fun g hg => hread g (List.mem_cons_of_mem _ hg))
        (Or.inl (by omega))]
      simp [successFrom, listTokens, hft, Nat.add_assoc]

/-- When every file is readable and the accumulator is positive or every
file holds at least one token, the whole loop succeeds, opening every
file and logging one cumulative success message per file. -/
theorem processFiles_all_success (fs : FS) (args : List String) (wc : Nat)
    (hread : ∀ f ∈ args, readableB fs f = true)
    (hpos : 0 < wc ∨ ∀ f ∈ args, 0 < fileTokens fs f) :
    processFiles args fs wc =
      { log := successFrom fs wc args, opens := args, result := .ok () } := by
  have h := processFiles_append fs args [] wc hread hpos
  simpa [processFiles] using h

/-- With a non-empty argument list, `main` runs the per-file loop with
the accumulator initialized to zero, prepending the demonstration
records. -/
theorem mainRun_cons (args : List String) (fs : FS) (h : args ≠ []) :
    mainRun args fs =
      { log := preamble ++ (processFiles args fs 0).log,
        opens := (processFiles args fs 0).opens,
        result := (processFiles args fs 0).result } := by
  cases args with
  | nil => exact absurd rfl h
  | cons f rest => rfl

/-- Among the fixed demonstration records, the only error-severity
message is "msg1" and the only info-severity message is "msg3". -/
theorem preamble_entries (e : LogEntry) (he : e ∈ preamble) :
    (e.level = Level.error → e.msg = "msg1") ∧ (e.level = Level.info → e.msg = "msg3") := by
  simp only [preamble, List.mem_cons, List.not_mem_nil, or_false] at he
  rcases he with rfl | rfl | rfl | rfl | rfl
  all_goals constructor
  all_goals intro h
  all_goals first | rfl | simp at h

/-- Claim C1 (code_bug): the claim says the count embedded in each
file's success message equals that file's own token count, but because
`wordcount` is declared outside the per-file loop, the run over the
one-token files "a" and "b" reports count 2 for "b" even though "b"
holds a single token: the reported count is the cumulative total, not
the per-file count. -/
theorem C1_cumulative_bug :
    (mainRun ["a", "b"] fsTwoFiles).result = .ok () ∧
    (mainRun ["a", "b"] fsTwoFiles).log =
      preamble ++ [⟨Level.info, (Errors.Success 1 "a").fmt⟩,
        ⟨Level.info, (Errors.Success 2 "b").fmt⟩] ∧
    countTokens "y" = 1 := by
  decide

/-- Claim C2 (confirmed): the word-count accumulator is never reset
between files.  Once it is positive, the empty-source failure can never
trigger for any later file; and over readable files the loop logs, for
the k-th file, a success message whose count is the starting value plus
the cumulative token total of files 1 through k (`successFrom`). -/
theorem C2_accumulator (args : List String) (fs : FS) (wc : Nat) :
    (0 < wc → ∀ f, (processFiles args fs wc).result ≠ .error (.EmptySource f)) ∧
    ((∀ f ∈ args, readableB fs f = true) →
      (0 < wc ∨ ∀ f ∈ args, 0 < fileTokens fs f) →
      processFiles args fs wc =
        { log := successFrom fs wc args, opens := args, result := .ok () }) :=
  ⟨fun hwc f => processFiles_no_empty args fs wc hwc f,
   fun hread hpos => processFiles_all_success fs args wc hread hpos⟩

/-- Witness for C2 at a concrete input: with the accumulator already at
1, the zero-token file "b" passes the empty-source check and is
reported with the carried-over count 1. -/
theorem C2_accumulator_witness :
    (processFiles ["b"] fsDemo 1).result ≠ .error (.EmptySource "b") ∧
    processFiles ["b"] fsDemo 1 =
      { log := [⟨Level.info, (Errors.Success 1 "b").fmt⟩], opens := ["b"],
        result := .ok () } :=
  ⟨(C2_accumulator ["b"] fsDemo 1).1 (by decide) "b",
   (C2_accumulator ["b"] fsDemo 1).2 (by decide) (Or.inl (by decide))⟩

/-- Claim C3 (code_bug): the claim says every argument position naming a
zero-token file yields an EmptySource failure, but after the one-token
file "a" the empty file "b" is reported as a success with count 1 and
the process exits with success status — the accumulator bug masks the
per-file empty-source check. -/
theorem C3_empty_after_nonempty_bug :
    (mainRun ["a", "b"] fsDemo).result = .ok () ∧
    fsDemo "b" = some [] ∧
    (mainRun ["a", "b"] fsDemo).log =
      preamble ++ [⟨Level.info, (Errors.Success 1 "a").fmt⟩,
        ⟨Level.info, (Errors.Success 1 "b").fmt⟩] := by
  decide

/-- Counterexample to claim C4 as stated: a run on a nonexistent file
fails with FileNotFound, yet no error-severity record carrying that
message is ever sent to the logging sink — the error is only propagated
as the process result. -/
theorem C4_counterexample :
    (mainRun ["xxx"] (fun _ => none)).result = .error (.FileNotFound "xxx") ∧
    (⟨Level.error, (Errors.FileNotFound "xxx").fmt⟩ : LogEntry) ∉
      (mainRun ["xxx"] (fun _ => none)).log := by
  decide

/-- Claim C4 (corrected): of all the failure variants only
MissingArgument is logged through the sink at error severity at its
point of origin (every other error-severity record is the fixed
demonstration message "msg1"); every info-severity record is either the
demonstration message "msg3" or a rendered Success message; and the
MissingArgument record is present exactly in the no-argument run. -/
theorem C4_logging_policy (args : List String) (fs : FS) :
    (∀ e ∈ (mainRun args fs).log, e.level = Level.error →
        e.msg = "msg1" ∨ e.msg = (Errors.MissingArg "filename").fmt) ∧
    (∀ e ∈ (mainRun args fs).log, e.level = Level.info →
        e.msg = "msg3" ∨ ∃ c f, e.msg = (Errors.Success c f).fmt) ∧
    (args = [] →
      (⟨Level.error, (Errors.MissingArg "filename").fmt⟩ : LogEntry) ∈ (mainRun args fs).log) ∧
    (args ≠ [] → ∀ m, (⟨Level.error, m⟩ : LogEntry) ∈ (mainRun args fs).log → m = "msg1") := by
  cases args with
  | nil =>
    refine ⟨?_, ?_, ?_, ?_⟩
    · intro e he h
      simp only [mainRun, preamble, List.append_eq, List.cons_append, List.nil_append,
        List.mem_cons, List.not_mem_nil, or_false] at he
      rcases he with rfl | rfl | rfl | rfl | rfl | rfl
      all_goals first
        | exact Or.inl rfl
        | exact Or.inr rfl
        | simp at h
    · intro e he h
      simp only [mainRun, preamble, List.append_eq, List.cons_append, List.nil_append,
        List.mem_cons, List.not_mem_nil, or_false] at he
      rcases he with rfl | rfl | rfl | rfl | rfl | rfl
      all_goals first
        | exact Or.inl rfl
        | simp at h
    · intro _
      simp [mainRun, preamble]
    · intro h
      exact absurd rfl h
  | cons g rest =>
    rw [mainRun_cons (g :: rest) fs (by simp)]
    refine ⟨?_, ?_, ?_, ?_⟩
    · intro e he h
      rcases List.mem_append.mp he with hp | hq
      · exact Or.inl ((preamble_entries e hp).1 h)
      · have hinfo := (processFiles_log_levels (g :: rest) fs 0 e hq).1
        rw [hinfo] at h
        simp at h
    · intro e he h
      rcases List.mem_append.mp he with hp | hq
      · exact Or.inl ((preamble_entries e hp).2 h)
      · exact Or.inr (processFiles_log_levels (g :: rest) fs 0 e hq).2
    · intro h
      simp at h
    · intro _ m hm
      rcases List.mem_append.mp hm with hp | hq
      · exact (preamble_entries _ hp).1 rfl
      · have hinfo := (processFiles_log_levels (g :: rest) fs 0 _ hq).1
        simp at hinfo

/-- Witness for C4 at a concrete input: the error-severity record
"msg1" of the no-argument run satisfies the error-severity clause. -/
theorem C4_logging_policy_witness :
    "msg1" = "msg1" ∨ "msg1" = (Errors.MissingArg "filename").fmt :=
  (C4_logging_policy [] (fun _ => none)).1 ⟨Level.error, "msg1"⟩ (by decide) rfl

/-- Claim C5 (confirmed): on an empty argument list the program logs the
MissingArgument error (whose message names "filename") at error
severity, opens no file whatever the file system holds, and exits with
failure status. -/
theorem C5_missing_argument (fs : FS) :
    mainRun [] fs =
      { log := preamble ++ [⟨Level.error, (Errors.MissingArg "filename").fmt⟩],
        opens := [], result := .error (.MissingArg "filename") } ∧
    (Errors.MissingArg "filename").fmt = "A 'filename' argument is required." :=
  ⟨rfl, rfl⟩

/-- Claim C6 (confirmed): when the run reaches a path that cannot be
opened — every earlier file is readable and keeps the accumulator
positive — the program fails with a FileNotFound error naming exactly
that path, and attempts no open beyond it: the opened files are the
earlier ones plus the failing path itself, none of the later ones. -/
theorem C6_first_failure (pre post : List String) (bad : String) (fs : FS)
    (hread : ∀ f ∈ pre, readableB fs f = true)
    (hpos : ∀ f ∈ pre, 0 < fileTokens fs f)
    (hbad : fs bad = none) :
    (mainRun (pre ++ bad :: post) fs).result = .error (.FileNotFound bad) ∧
    (mainRun (pre ++ bad :: post) fs).opens = pre ++ [bad] := by
  have hne : pre ++ bad :: post ≠ [] := by cases pre <;> simp
  rw [mainRun_cons _ fs hne]
  have hbadrun : processFiles (bad :: post) fs (0 + listTokens fs pre) =
      { log := [], opens := [bad], result := .error (.FileNotFound bad) } := by
    simp [processFiles, hbad]
  have happ := processFiles_append fs pre (bad :: post) 0 hread (Or.inr hpos)
  rw [hbadrun] at happ
  rw [happ]
  exact ⟨rfl, rfl⟩

/-- Witness for C6 at a concrete input: after the readable one-token
file "a", the unopenable "b" aborts the run with FileNotFound "b" and
the later file "c" is never opened. -/
theorem C6_first_failure_witness :
    (mainRun (["a"] ++ "b" :: ["c"]) fsC6).result = .error (.FileNotFound "b") ∧
    (mainRun (["a"] ++ "b" :: ["c"]) fsC6).opens = ["a"] ++ ["b"] :=
  C6_first_failure ["a"] ["c"] "b" fsC6 (by decide) (by decide) (by decide)

/-- Counterexample to claim C7 as stated: the rendered Success message
is not the claimed single-space string "SUCCESS! We found 3 words in
input.txt." — the source format string has two spaces after
"SUCCESS!". -/
theorem C7_counterexample :
    ¬ (Errors.Success 3 "input.txt").fmt = "SUCCESS! We found 3 words in input.txt." := by
  decide

/-- Claim C7 (corrected): for every count and filename the Success
variant renders exactly "SUCCESS!  We found {count} words in
{filename}." with TWO spaces after "SUCCESS!", and never equals the
single-space rendering the claim describes. -/
theorem C7_success_format (c : Nat) (f : String) :
    (Errors.Success c f).fmt =
      "SUCCESS!  We found " ++ toString c ++ " words in " ++ f ++ "." ∧
    (Errors.Success c f).fmt ≠
      "SUCCESS! We found " ++ toString c ++ " words in " ++ f ++ "." := by
  refine ⟨rfl, ?_⟩
  intro h
  have hlen := congrArg String.length h
  have h2 : ("SUCCESS!  We found " : String).length = 19 := rfl
  have h1 : ("SUCCESS! We found " : String).length = 18 := rfl
  have h3 : (" words in " : String).length = 10 := rfl
  have h4 : ("." : String).length = 1 := rfl
  simp only [Errors.fmt, String.length_append, h1, h2, h3, h4] at hlen
  omega

/-- Witness for C7 at a concrete input. -/
theorem C7_success_format_witness :
    (Errors.Success 3 "t").fmt =
      "SUCCESS!  We found " ++ toString 3 ++ " words in " ++ "t" ++ "." :=
  (C7_success_format 3 "t").1

/-- Claim C8 (confirmed): the word count the driver computes for a
file's raw content depends only on the sequence of maximal
non-whitespace runs.  Two raw contents assembled from the same token
sequence with arbitrary (nonempty) whitespace separators — which may
contain newlines and so split into different line lists — yield the
same accumulated count. -/
theorem C8_whitespace_insensitive
    (w0 w0' tl : List Char) (ps ps' : List (List Char × List Char)) (wc : Nat)
    (hw0 : allWS w0) (hw0' : allWS w0')
    (hps : ∀ p ∈ ps, isTok p.1 ∧ allWS p.2 ∧ p.2 ≠ [])
    (hps' : ∀ p ∈ ps', isTok p.1 ∧ allWS p.2 ∧ p.2 ≠ [])
    (heq : ps.map Prod.fst = ps'.map Prod.fst)
    (htl : tl = [] ∨ isTok tl) :
    countFileWords (fileDataOfBytes (assemble w0 ps tl)) wc =
      countFileWords (fileDataOfBytes (assemble w0' ps' tl)) wc := by
  have hlen : ps.length = ps'.length := by
    have h := congrArg List.length heq
    simpa using h
  have hcount : ∀ (w : List Char) (qs : List (List Char × List Char)),
      allWS w → (∀ p ∈ qs, isTok p.1 ∧ allWS p.2 ∧ p.2 ≠ []) →
      countWordsAux (assemble w qs tl) false
        = qs.length + (if tl = [] then 0 else 1) := by
    intro w qs hw hqs
    show countWordsAux (w ++ (qs.map fun p => p.1 ++ p.2).flatten ++ tl) false = _
    rw [List.append_assoc, countWordsAux_leading_ws w hw,
      countWordsAux_assembly qs tl hqs htl]
  rw [countFileWords_bytes, countFileWords_bytes, hcount w0 ps hw0 hps,
    hcount w0' ps' hw0' hps', hlen]

/-- Witness for C8 at a concrete input: the token "a" separated by a
single space versus surrounded by a leading space and a
newline-plus-tab separator gives the same count. -/
theorem C8_whitespace_insensitive_witness :
    countFileWords (fileDataOfBytes (assemble [] [(['a'], [' '])] [])) 0 =
      countFileWords (fileDataOfBytes (assemble [' '] [(['a'], ['\n', '\t'])] [])) 0 :=
  C8_whitespace_insensitive [] [' '] [] [(['a'], [' '])] [(['a'], ['\n', '\t'])] 0
    (by decide) (by decide) (by decide) (by decide) (by decide) (Or.inl rfl)

/-- Claim C9 (confirmed): the accumulator never decreases: its value
after reading a prefix of a file's lines is at least its starting
value, and reading further lines can only increase it. -/
theorem C9_monotone (d₁ d₂ : FileData) (wc w₁ w₂ : Nat)
    (h₁ : countFileWords d₁ wc = .ok w₁)
    (h₂ : countFileWords (d₁ ++ d₂) wc = .ok w₂) :
    wc ≤ w₁ ∧ w₁ ≤ w₂ := by
  have happ := countFileWords_append d₁ d₂ wc w₁ h₁
  rw [happ] at h₂
  exact ⟨countFileWords_le d₁ wc w₁ h₁, countFileWords_le d₂ w₁ w₂ h₂⟩

/-- Witness for C9 at a concrete input: the line "a b" takes the
accumulator from 0 to 2 and the further line "c" to 3. -/
theorem C9_monotone_witness : (0 : Nat) ≤ 2 ∧ (2 : Nat) ≤ 3 :=
  C9_monotone [.ok "a b"] [.ok "c"] 0 2 3 (by decide) (by decide)

/-- Claim C10 (confirmed): the Success variant is never the failure
result of a run, and an invocation with at least one argument in which
every file is readable and holds at least one token — so every file
passes the empty-source check — returns the success result. -/
theorem C10_success_variant (args : List String) (fs : FS) :
    (∀ c f, (mainRun args fs).result ≠ .error (.Success c f)) ∧
    (args ≠ [] → (∀ f ∈ args, readableB fs f = true ∧ 0 < fileTokens fs f) →
      (mainRun args fs).result = .ok ()) := by
  constructor
  · intro c f h
    cases args with
    | nil => simp [mainRun] at h
    | cons g rest =>
      rw [mainRun_cons (g :: rest) fs (by simp)] at h
      exact processFiles_not_success (g :: rest) fs 0 c f h
  · intro hne hok
    rw [mainRun_cons args fs hne,
      processFiles_all_success fs args 0 (fun f hf => (hok f hf).1)
        (Or.inr (fun f hf => (hok f hf).2))]

/-- Witness for C10 at a concrete input: the run over the readable
one-token file "a" returns the success result, which in particular is
not a Success-variant failure. -/
theorem C10_success_variant_witness :
    (mainRun ["a"] fsC6).result = .ok () ∧
    (mainRun ["a"] fsC6).result ≠ .error (.Success 5 "q") :=
  ⟨(C10_success_variant ["a"] fsC6).2 (by decide) (by decide),
   (C10_success_variant ["a"] fsC6).1 5 "q"⟩
